import Mathlib

/-!
Shallow embedding of `src/libobs/callback/signal.c` (obs-studio signal
handler): a registry mapping signal names to ordered callback lists, with
operations create/destroy/connect/disconnect/emit.

Modelling choices:
* Function pointers and `void *` context pointers are abstract identities
  (`Nat`); only pointer equality is ever used by the C code.
* The singly linked chain `handler->first` / `si->next` is represented by
  the list of nodes reachable from `first`, in chain order.  The two raw
  pointer stores in `signal_handler_connect` (`handler->first = sig` and
  `last->next = sig`) are rendered as what they do to that chain
  (`writeFirst`, `writeNext`), including the case where the stored pointer
  is NULL (failed `signal_info_create`).
* `DARRAY_INVALID` (the not-found sentinel of `signal_get_callback_idx`)
  is rendered as `Option.none`.
* Mutex operations and callback invocations are recorded as events in a
  trace (`Ev`); the registry-lock state at any point of a trace is derived
  from the trace by `regStateAfter` / `annotateReg`, mirroring
  `pthread_mutex_lock` / `pthread_mutex_unlock` on `handler->mutex`.
* Calls through `calldata_t` payloads are opaque: an emission records an
  `Ev.invoke` event carrying the callback identity, the payload and the
  registered context, exactly as `cb->callback(params, cb->data)` passes
  them.
-/

namespace ObsSignal

/-- `struct signal_callback { void (*callback)(calldata_t, void*); void *data; }`.
Both pointers are abstract identities compared by equality. -/
structure SignalCallback where
  callback : Nat
  data : Nat
deriving DecidableEq, Repr

/-- One node of the signal chain: `struct signal_info` without the `next`
pointer (chain order is carried by the enclosing list) and without the
mutex object itself (lock events go to the trace). -/
structure SignalInfo where
  name : String
  callbacks : List SignalCallback
deriving DecidableEq, Repr

/-- Default used with `List.getD`; never reached under the indices the
lemmas establish. -/
def dummyInfo : SignalInfo := { name := "", callbacks := [] }

/-- Default callback for `List.getD`. -/
def dummyCb : SignalCallback := { callback := 0, data := 0 }

/-- Observable events of one operation, in program order. -/
inductive Ev where
  | lockReg
  | unlockReg
  | createEntry (name : String) (ok : Bool)
  | linkEntry (name : String)
  | lockEntry (name : String)
  | unlockEntry (name : String)
  | push
  | eraseCb
  | invoke (callback : Nat) (params : Nat) (data : Nat)
  | destroyEntry (name : String)
deriving DecidableEq, Repr

/-- Effect of one event on the registry-lock state: only
`pthread_mutex_lock`/`unlock` on `handler->mutex` change it. -/
def regStep (held : Bool) : Ev → Bool
  | Ev.lockReg => true
  | Ev.unlockReg => false
  | _ => held

/-- Registry-lock state after executing a trace, starting from `held`. -/
def regStateAfter : Bool → List Ev → Bool
  | held, [] => held
  | held, e :: rest => regStateAfter (regStep held e) rest

/-- Annotate each event with the registry-lock state in force when it
executes (for lock/unlock events: the state they establish). -/
def annotateReg : Bool → List Ev → List (Ev × Bool)
  | _, [] => []
  | held, e :: rest => (e, regStep held e) :: annotateReg (regStep held e) rest

/-- The loop of `getsignal`: walk the chain comparing names, tracking the
last node visited.  Returns (index of the node found, index of `last`).
`base` is the index of the head of the remaining chain. -/
def getsignalAux : List SignalInfo → String → Nat → Option Nat → Option Nat × Option Nat
  | [], _, _, last => (none, last)
  | si :: rest, name, base, last =>
    if si.name = name then (some base, last) else
      getsignalAux rest name (base + 1) (some base)

/-- `getsignal(handler, name, &last)`: index of the matching node and of the
node `last` points to afterwards (the predecessor of the match, or the tail
of the chain when there is no match). -/
def getsignalIdx (entries : List SignalInfo) (name : String) : Option Nat × Option Nat :=
  getsignalAux entries name 0 none

/-- The loop of `signal_get_callback_idx`: first index whose
`(callback, data)` pair matches, else `DARRAY_INVALID` (here `none`). -/
def scanCb : List SignalCallback → Nat → Nat → Nat → Option Nat
  | [], _, _, _ => none
  | sc :: rest, callback, data, i =>
    if sc.callback = callback ∧ sc.data = data then some i
    else scanCb rest callback data (i + 1)

/-- `signal_get_callback_idx(si, callback, data)`. -/
def signal_get_callback_idx (si : SignalInfo) (callback data : Nat) : Option Nat :=
  scanCb si.callbacks callback data 0

/-- `signal_info_create(name)`: fresh node with empty callback array and
`next = NULL`; returns NULL (`none`) when `pthread_mutex_init` fails
(`mutexInitOk = false`). -/
def signal_info_create (name : String) (mutexInitOk : Bool) : Option SignalInfo :=
  match mutexInitOk with
  | true => some { name := name, callbacks := [] }
  | false => none

/-- The store `handler->first = sig`: the chain reachable from `first`
becomes the chain hanging off `sig` (a fresh node has `next = NULL`, a NULL
store empties the chain). -/
def writeFirst (sig : Option SignalInfo) : List SignalInfo :=
  match sig with
  | none => []
  | some s => [s]

/-- The store `last->next = sig` where `last` is the node at index `li`:
nodes up to and including `li` stay, followed by the chain hanging off
`sig`. -/
def writeNext (entries : List SignalInfo) (li : Nat) (sig : Option SignalInfo) :
    List SignalInfo :=
  entries.take (li + 1) ++ (match sig with | none => [] | some s => [s])

/-- Replace the node at index `i` by `f` of it (mutation through the `sig`
pointer). -/
def modifyIdx : List SignalInfo → Nat → (SignalInfo → SignalInfo) → List SignalInfo
  | [], _, _ => []
  | a :: rest, 0, f => f a :: rest
  | a :: rest, n + 1, f => a :: modifyIdx rest n f

/-- The entry-phase of `signal_handler_connect`, executed through the `sig`
pointer while holding `sig->mutex`: look up the `(callback, data)` pair and
append it only when absent (`da_push_back`). -/
def connectEntryPhase (si : SignalInfo) (cb : SignalCallback) : SignalInfo × List Ev :=
  match signal_get_callback_idx si cb.callback cb.data with
  | none =>
    ({ si with callbacks := si.callbacks ++ [cb] },
      [Ev.lockEntry si.name, Ev.push, Ev.unlockEntry si.name])
  | some _ => (si, [Ev.lockEntry si.name, Ev.unlockEntry si.name])

/-- Result of one `signal_handler_connect` call: the chain it leaves behind
and its event trace. -/
structure ConnectResult where
  entries : List SignalInfo
  trace : List Ev
deriving DecidableEq, Repr

/-- `signal_handler_connect(handler, signal, callback, data)`.  `createOk`
says whether `pthread_mutex_init` inside `signal_info_create` would
succeed.  Mirrors the source line by line: lock registry, `getsignal`; if
absent, create and link (NULL is linked too when creation failed, and on
that failure the function returns WITHOUT unlocking the registry mutex);
otherwise unlock registry and run the entry phase under the entry lock. -/
def signal_handler_connect (entries : List SignalInfo) (signal : String)
    (callback data : Nat) (createOk : Bool) : ConnectResult :=
  let cb_data : SignalCallback := { callback := callback, data := data }
  match getsignalIdx entries signal with
  | (some i, _) =>
    { entries := modifyIdx entries i (fun si => (connectEntryPhase si cb_data).1),
      trace := [Ev.lockReg, Ev.unlockReg] ++
        (connectEntryPhase (entries.getD i dummyInfo) cb_data).2 }
  | (none, last) =>
    let sig := signal_info_create signal createOk
    let entries1 :=
      match last with
      | none => writeFirst sig
      | some li => writeNext entries li sig
    match sig with
    | none =>
      { entries := entries1,
        trace := [Ev.lockReg, Ev.createEntry signal false, Ev.linkEntry signal] }
    | some s =>
      let i := match last with | none => 0 | some li => li + 1
      { entries := modifyIdx entries1 i (fun si => (connectEntryPhase si cb_data).1),
        trace := [Ev.lockReg, Ev.createEntry signal true, Ev.linkEntry signal,
          Ev.unlockReg] ++ (connectEntryPhase s cb_data).2 }

/-- `signal_handler_disconnect(handler, signal, callback, data)`: look up
the node under the registry lock (`getsignal_locked`), no-op when absent;
otherwise erase the first matching pair (`da_erase`) under the entry
lock. -/
def signal_handler_disconnect (entries : List SignalInfo) (signal : String)
    (callback data : Nat) : List SignalInfo × List Ev :=
  match getsignalIdx entries signal with
  | (none, _) => (entries, [Ev.lockReg, Ev.unlockReg])
  | (some i, _) =>
    let si := entries.getD i dummyInfo
    match signal_get_callback_idx si callback data with
    | none =>
      (entries, [Ev.lockReg, Ev.unlockReg, Ev.lockEntry si.name, Ev.unlockEntry si.name])
    | some j =>
      (modifyIdx entries i (fun s2 => { s2 with callbacks := s2.callbacks.eraseIdx j }),
        [Ev.lockReg, Ev.unlockReg, Ev.lockEntry si.name, Ev.eraseCb,
          Ev.unlockEntry si.name])

/-- `signal_handler_signal(handler, signal, params)`: look up the node via
`getsignal_locked`, no-op when absent; otherwise invoke every stored
callback in array order under the entry lock, passing `params` and that
callback's `data`.  The chain itself is not modified. -/
def signal_handler_signal (entries : List SignalInfo) (signal : String)
    (params : Nat) : List SignalInfo × List Ev :=
  match getsignalIdx entries signal with
  | (none, _) => (entries, [Ev.lockReg, Ev.unlockReg])
  | (some i, _) =>
    let si := entries.getD i dummyInfo
    (entries,
      [Ev.lockReg, Ev.unlockReg, Ev.lockEntry si.name] ++
        si.callbacks.map (fun cb => Ev.invoke cb.callback params cb.data) ++
        [Ev.unlockEntry si.name])

/-- Log lines issued through `blog(LOG_ERROR, ...)`. -/
inductive LogMsg where
  | couldNotCreateSignalHandler
  | couldNotCreateSignal
deriving DecidableEq, Repr

/-- Result of `signal_handler_create`: the handle (none = NULL), the log
output, and allocation bookkeeping (`bmalloc` / `bfree` on the handler). -/
structure CreateResult where
  handle : Option (List SignalInfo)
  log : List LogMsg
  allocated : Nat
  freed : Nat
deriving DecidableEq, Repr

/-- `signal_handler_create()`: allocate, set `first = NULL`; if
`pthread_mutex_init` fails (`mutexInitOk = false`), log, free the handler
and return NULL. -/
def signal_handler_create (mutexInitOk : Bool) : CreateResult :=
  match mutexInitOk with
  | true => { handle := some [], log := [], allocated := 1, freed := 0 }
  | false =>
    { handle := none, log := [LogMsg.couldNotCreateSignalHandler],
      allocated := 1, freed := 1 }

/-- Outcome of an operation called through a possibly-NULL handle. -/
inductive CallResult (α : Type) where
  | ok (value : α)
  | nullDeref
deriving DecidableEq, Repr

/-- `signal_handler_destroy(handler)`: guarded by `if (handler)`, so a NULL
handle is a tolerated no-op; otherwise every node of the chain is destroyed
and the handler freed. -/
def signal_handler_destroy (h : Option (List SignalInfo)) : CallResult (List Ev) :=
  match h with
  | none => CallResult.ok []
  | some entries => CallResult.ok (entries.map (fun si => Ev.destroyEntry si.name))

/-- `signal_handler_connect` through the raw handle: the first statement
executed is `pthread_mutex_lock(&handler->mutex)` with no NULL check. -/
def connectOnHandle (h : Option (List SignalInfo)) (signal : String)
    (callback data : Nat) (createOk : Bool) : CallResult ConnectResult :=
  match h with
  | none => CallResult.nullDeref
  | some entries => CallResult.ok (signal_handler_connect entries signal callback data createOk)

/-- `signal_handler_disconnect` through the raw handle (`getsignal_locked`
locks `handler->mutex` with no NULL check). -/
def disconnectOnHandle (h : Option (List SignalInfo)) (signal : String)
    (callback data : Nat) : CallResult (List SignalInfo × List Ev) :=
  match h with
  | none => CallResult.nullDeref
  | some entries => CallResult.ok (signal_handler_disconnect entries signal callback data)

/-- `signal_handler_signal` through the raw handle (`getsignal_locked`
locks `handler->mutex` with no NULL check). -/
def emitOnHandle (h : Option (List SignalInfo)) (signal : String)
    (params : Nat) : CallResult (List SignalInfo × List Ev) :=
  match h with
  | none => CallResult.nullDeref
  | some entries => CallResult.ok (signal_handler_signal entries signal params)

/-- The `(callback, payload, data)` triples of the invocation events of a
trace, in order. -/
def invokeEvents (t : List Ev) : List (Nat × Nat × Nat) :=
  t.filterMap fun e =>
    match e with
    | Ev.invoke c p d => some (c, p, d)
    | _ => none

/-- One public mutating operation, for whole-history statements. -/
inductive Op where
  | connectOp (name : String) (callback data : Nat) (createOk : Bool)
  | disconnectOp (name : String) (callback data : Nat)
  | emitOp (name : String) (params : Nat)
deriving DecidableEq, Repr

/-- Effect of one operation on the chain. -/
def applyOp (entries : List SignalInfo) : Op → List SignalInfo
  | Op.connectOp n cb d ok => (signal_handler_connect entries n cb d ok).entries
  | Op.disconnectOp n cb d => (signal_handler_disconnect entries n cb d).1
  | Op.emitOp n p => (signal_handler_signal entries n p).1

/-- Effect of a sequence of operations on the chain. -/
def runOps (entries : List SignalInfo) : List Op → List SignalInfo
  | [] => entries
  | op :: rest => runOps (applyOp entries op) rest

/-! ### Supporting lemmas -/

/-- The pairwise field comparison of `signal_get_callback_idx` is equality
of the `SignalCallback` record. -/
theorem sc_ext (sc : SignalCallback) (cb d : Nat) :
    (sc.callback = cb ∧ sc.data = d) ↔ sc = SignalCallback.mk cb d := by
  cases sc with
  | mk c dd => simp

/-- When the scan fails, `last` ends at the tail of a nonempty chain. -/
theorem getsignalAux_none_last (l : List SignalInfo) (name : String) :
    ∀ (base : Nat) (last : Option Nat), (getsignalAux l name base last).1 = none →
      l ≠ [] → (getsignalAux l name base last).2 = some (base + l.length - 1) := by
  induction l with
  | nil => intro base last _ hne; exact absurd rfl hne
  | cons si rest ih =>
    intro base last h _
    simp only [getsignalAux] at h ⊢
    by_cases hn : si.name = name
    · rw [if_pos hn] at h; simp at h
    · rw [if_neg hn] at h ⊢
      cases hr : rest with
      | nil => subst hr; simp [getsignalAux]
      | cons r rs =>
        subst hr
        rw [ih (base + 1) (some base) h (by simp)]
        simp only [List.length_cons, Option.some.injEq]
        omega

/-- When the scan succeeds it returns a valid index of a node carrying the
searched name. -/
theorem getsignalAux_found (l : List SignalInfo) (name : String) :
    ∀ (base : Nat) (last : Option Nat) (i : Nat),
      (getsignalAux l name base last).1 = some i →
      base ≤ i ∧ i - base < l.length ∧ (l.getD (i - base) dummyInfo).name = name := by
  induction l with
  | nil => intro base last i h; simp [getsignalAux] at h
  | cons si rest ih =>
    intro base last i h
    simp only [getsignalAux] at h
    by_cases hn : si.name = name
    · rw [if_pos hn] at h
      obtain rfl : base = i := by simpa using h
      refine ⟨Nat.le_refl _, by simp, ?_⟩
      simp [hn]
    · rw [if_neg hn] at h
      obtain ⟨h1, h2, h3⟩ := ih (base + 1) (some base) i h
      refine ⟨by omega, by simp only [List.length_cons]; omega, ?_⟩
      have he : i - base = (i - (base + 1)) + 1 := by omega
      rw [he, List.getD_cons_succ]
      exact h3

/-- Scanning an appended chain continues past an unsuccessful first part. -/
theorem getsignalAux_append_none (l₁ l₂ : List SignalInfo) (name : String) :
    ∀ (base : Nat) (last : Option Nat), (getsignalAux l₁ name base last).1 = none →
      getsignalAux (l₁ ++ l₂) name base last =
        getsignalAux l₂ name (base + l₁.length) (getsignalAux l₁ name base last).2 := by
  induction l₁ with
  | nil => intro base last _; simp [getsignalAux]
  | cons si rest ih =>
    intro base last h
    simp only [getsignalAux, List.cons_append, List.append_eq] at h ⊢
    by_cases hn : si.name = name
    · rw [if_pos hn] at h; simp at h
    · simp only [if_neg hn] at h ⊢
      rw [ih (base + 1) (some base) h]
      have he : base + 1 + rest.length = base + (rest.length + 1) := by omega
      simp only [List.length_cons, he]

/-- The scan only looks at names. -/
theorem getsignalAux_congr : ∀ (l₁ l₂ : List SignalInfo),
    l₁.map (fun si => si.name) = l₂.map (fun si => si.name) →
    ∀ (name : String) (base : Nat) (last : Option Nat),
      getsignalAux l₁ name base last = getsignalAux l₂ name base last := by
  intro l₁
  induction l₁ with
  | nil =>
    intro l₂ h name base last
    cases l₂ with
    | nil => rfl
    | cons b bs => simp at h
  | cons a as ih =>
    intro l₂ h name base last
    cases l₂ with
    | nil => simp at h
    | cons b bs =>
      simp only [List.map_cons, List.cons.injEq] at h
      obtain ⟨h1, h2⟩ := h
      simp only [getsignalAux, h1]
      by_cases hn : b.name = name
      · simp [hn]
      · rw [if_neg hn, if_neg hn]
        exact ih bs h2 name (base + 1) (some base)

/-- Top-level form of `getsignalAux_none_last`. -/
theorem getsignalIdx_none_last (entries : List SignalInfo) (name : String)
    (h : (getsignalIdx entries name).1 = none) (hne : entries ≠ []) :
    (getsignalIdx entries name).2 = some (entries.length - 1) := by
  have := getsignalAux_none_last entries name 0 none h hne
  simpa using this

/-- Top-level form of `getsignalAux_found`. -/
theorem getsignalIdx_found (entries : List SignalInfo) (name : String) (i : Nat)
    (h : (getsignalIdx entries name).1 = some i) :
    i < entries.length ∧ (entries.getD i dummyInfo).name = name := by
  obtain ⟨_, h2, h3⟩ := getsignalAux_found entries name 0 none i h
  constructor
  · simpa using h2
  · simpa using h3

/-- `signal_get_callback_idx` returns `DARRAY_INVALID` exactly when the
pair is not in the array. -/
theorem scanCb_eq_none (cb d : Nat) : ∀ (l : List SignalCallback) (base : Nat),
    scanCb l cb d base = none ↔ SignalCallback.mk cb d ∉ l := by
  intro l
  induction l with
  | nil => intro base; simp [scanCb]
  | cons sc rest ih =>
    intro base
    simp only [scanCb]
    by_cases hm : sc.callback = cb ∧ sc.data = d
    · rw [if_pos hm]
      have hsc : sc = SignalCallback.mk cb d := (sc_ext sc cb d).mp hm
      simp [hsc]
    · rw [if_neg hm, ih (base + 1)]
      constructor
      · intro hnone hmem
        rcases List.mem_cons.mp hmem with he | ht
        · exact hm (by rw [← he]; exact ⟨rfl, rfl⟩)
        · exact hnone ht
      · intro hnm ht
        exact hnm (List.mem_cons_of_mem _ ht)

/-- A successful `signal_get_callback_idx` points at the matching pair. -/
theorem scanCb_some (cb d : Nat) : ∀ (l : List SignalCallback) (base j : Nat),
    scanCb l cb d base = some j →
    base ≤ j ∧ j - base < l.length ∧
      l.getD (j - base) dummyCb = SignalCallback.mk cb d := by
  intro l
  induction l with
  | nil => intro base j h; simp [scanCb] at h
  | cons sc rest ih =>
    intro base j h
    simp only [scanCb] at h
    by_cases hm : sc.callback = cb ∧ sc.data = d
    · rw [if_pos hm] at h
      obtain rfl : base = j := by simpa using h
      refine ⟨Nat.le_refl _, by simp, ?_⟩
      simp [Nat.sub_self]
      exact (sc_ext sc cb d).mp hm
    · rw [if_neg hm] at h
      obtain ⟨h1, h2, h3⟩ := ih (base + 1) j h
      refine ⟨by omega, by simp only [List.length_cons]; omega, ?_⟩
      have he : j - base = (j - (base + 1)) + 1 := by omega
      rw [he, List.getD_cons_succ]
      exact h3

/-- A pointer-targeted update that fixes its target leaves the chain
unchanged. -/
theorem modifyIdx_eq_self : ∀ (l : List SignalInfo) (i : Nat) (f : SignalInfo → SignalInfo),
    f (l.getD i dummyInfo) = l.getD i dummyInfo → modifyIdx l i f = l
  | [], _, _, _ => rfl
  | a :: rest, 0, f, h => by
    simp only [List.getD_cons_zero] at h
    simp [modifyIdx, h]
  | a :: rest, n + 1, f, h => by
    simp only [List.getD_cons_succ] at h
    simp [modifyIdx, modifyIdx_eq_self rest n f h]

/-- A name-preserving update preserves the chain's name sequence. -/
theorem modifyIdx_map_name : ∀ (l : List SignalInfo) (i : Nat) (f : SignalInfo → SignalInfo),
    (∀ a, (f a).name = a.name) →
    (modifyIdx l i f).map (fun si => si.name) = l.map (fun si => si.name)
  | [], _, _, _ => rfl
  | a :: rest, 0, f, h => by simp [modifyIdx, h a]
  | a :: rest, n + 1, f, h => by simp [modifyIdx, modifyIdx_map_name rest n f h]

/-- In-range `modifyIdx` is `List.set` of the transformed element. -/
theorem modifyIdx_eq_set : ∀ (l : List SignalInfo) (i : Nat) (f : SignalInfo → SignalInfo),
    i < l.length → modifyIdx l i f = l.set i (f (l.getD i dummyInfo))
  | [], i, _, h => by simp at h
  | a :: rest, 0, f, _ => by simp [modifyIdx]
  | a :: rest, n + 1, f, h => by
    have hn : n < rest.length := by simpa using h
    simp [modifyIdx, modifyIdx_eq_set rest n f hn]

/-- Reading back the element a `modifyIdx` wrote. -/
theorem modifyIdx_getD : ∀ (l : List SignalInfo) (i : Nat) (f : SignalInfo → SignalInfo),
    i < l.length → (modifyIdx l i f).getD i dummyInfo = f (l.getD i dummyInfo)
  | [], i, _, h => by simp at h
  | a :: rest, 0, f, _ => by simp [modifyIdx]
  | a :: rest, n + 1, f, h => by
    have hn : n < rest.length := by simpa using h
    simp only [modifyIdx, List.getD_cons_succ]
    exact modifyIdx_getD rest n f hn

/-- Updating the freshly appended tail node. -/
theorem modifyIdx_append_right : ∀ (l : List SignalInfo) (a : SignalInfo)
    (f : SignalInfo → SignalInfo), modifyIdx (l ++ [a]) l.length f = l ++ [f a]
  | [], _, _ => rfl
  | b :: rest, a, f => by simp [modifyIdx, modifyIdx_append_right rest a f]

/-- Reading the freshly appended tail node. -/
theorem getD_append_length : ∀ (l : List SignalInfo) (x : SignalInfo),
    (l ++ [x]).getD l.length dummyInfo = x
  | [], _ => rfl
  | _ :: rest, x => by
    simp only [List.cons_append, List.length_cons, List.getD_cons_succ]
    exact getD_append_length rest x

/-- `da_erase` at a valid index splits the array around the erased cell. -/
theorem eraseIdx_split : ∀ (l : List SignalCallback) (j : Nat), j < l.length →
    ∃ l1 l2, l = l1 ++ (l.getD j dummyCb) :: l2 ∧ l.eraseIdx j = l1 ++ l2 := by
  intro l
  induction l with
  | nil => intro j h; simp at h
  | cons a rest ih =>
    intro j h
    cases j with
    | zero => exact ⟨[], rest, by simp, by simp⟩
    | succ n =>
      obtain ⟨l1, l2, h1, h2⟩ := ih n (by simpa using h)
      refine ⟨a :: l1, l2, ?_, ?_⟩
      · simp only [List.getD_cons_succ, List.cons_append, List.cons.injEq]
        exact ⟨trivial, h1⟩
      · simp only [List.eraseIdx_cons_succ, List.cons_append, List.cons.injEq]
        exact ⟨trivial, h2⟩

/-- Lock-state annotation distributes over trace concatenation. -/
theorem annotateReg_append : ∀ (t1 t2 : List Ev) (held : Bool),
    annotateReg held (t1 ++ t2) =
      annotateReg held t1 ++ annotateReg (regStateAfter held t1) t2 := by
  intro t1
  induction t1 with
  | nil => intro t2 held; rfl
  | cons e rest ih =>
    intro t2 held
    simp only [List.cons_append, annotateReg, regStateAfter, List.cons.injEq]
    exact ⟨trivial, ih t2 (regStep held e)⟩

/-! ### Behaviour of the entry phase of connect -/

/-- The entry phase never renames the node. -/
theorem cep_name (si : SignalInfo) (cbp : SignalCallback) :
    ((connectEntryPhase si cbp).1).name = si.name := by
  cases hsc : signal_get_callback_idx si cbp.callback cbp.data <;>
    simp [connectEntryPhase, hsc]

/-- A valid `getD` index reads a list member. -/
theorem getD_mem_cb : ∀ (l : List SignalCallback) (j : Nat), j < l.length →
    l.getD j dummyCb ∈ l
  | [], j, h => by simp at h
  | a :: rest, 0, _ => by simp
  | a :: rest, j + 1, h => by
    have hm := getD_mem_cb rest j (by simpa using h)
    simp only [List.getD_cons_succ]
    exact List.mem_cons_of_mem a hm

/-- After the entry phase the pair is registered. -/
theorem cep_mem (si : SignalInfo) (cbp : SignalCallback) :
    cbp ∈ ((connectEntryPhase si cbp).1).callbacks := by
  cases hsc : signal_get_callback_idx si cbp.callback cbp.data with
  | none => simp [connectEntryPhase, hsc]
  | some j =>
    simp only [connectEntryPhase, hsc]
    obtain ⟨_, h2, h3⟩ := scanCb_some cbp.callback cbp.data si.callbacks 0 j hsc
    have hj : j < si.callbacks.length := by simpa using h2
    have h3' : si.callbacks.getD j dummyCb = cbp := by
      have he : SignalCallback.mk cbp.callback cbp.data = cbp := rfl
      rw [← he]; simpa using h3
    rw [← h3']
    exact getD_mem_cb si.callbacks j hj

/-- On an already-registered pair the entry phase is the identity
(`da_push_back` is skipped). -/
theorem cep_of_mem (si : SignalInfo) (cbp : SignalCallback)
    (h : cbp ∈ si.callbacks) : (connectEntryPhase si cbp).1 = si := by
  cases hsc : signal_get_callback_idx si cbp.callback cbp.data with
  | some j => simp [connectEntryPhase, hsc]
  | none =>
    exfalso
    have he : SignalCallback.mk cbp.callback cbp.data = cbp := rfl
    have := (scanCb_eq_none cbp.callback cbp.data si.callbacks 0).mp hsc
    rw [he] at this
    exact this h

/-- All trace events of the entry phase are entry-lock events. -/
theorem cep_trace_events (si : SignalInfo) (cbp : SignalCallback) (b : Bool)
    (p : Ev × Bool) (hp : p ∈ annotateReg b (connectEntryPhase si cbp).2) :
    p.1 = Ev.lockEntry si.name ∨ p.1 = Ev.push ∨ p.1 = Ev.unlockEntry si.name := by
  cases hsc : signal_get_callback_idx si cbp.callback cbp.data with
  | none =>
    simp [connectEntryPhase, hsc, annotateReg, regStep] at hp
    rcases hp with rfl | rfl | rfl <;> simp
  | some j =>
    simp [connectEntryPhase, hsc, annotateReg, regStep] at hp
    rcases hp with rfl | rfl <;> simp

/-! ### Branch equations of signal_handler_connect -/

/-- `connect` on an existing entry: the registry lock is taken and released,
then the entry phase runs on the found node. -/
theorem connect_found_eq (entries : List SignalInfo) (name : String) (cb d : Nat)
    (ok : Bool) (i : Nat) (h : (getsignalIdx entries name).1 = some i) :
    signal_handler_connect entries name cb d ok =
      { entries := modifyIdx entries i
          (fun si => (connectEntryPhase si { callback := cb, data := d }).1),
        trace := [Ev.lockReg, Ev.unlockReg] ++
          (connectEntryPhase (entries.getD i dummyInfo)
            { callback := cb, data := d }).2 } := by
  rcases hgs : getsignalIdx entries name with ⟨o, la⟩
  rw [hgs] at h
  obtain rfl : o = some i := h
  simp [signal_handler_connect, hgs]

/-- `connect` on an unknown name when `signal_info_create` fails: the NULL
stores leave the chain as it was, and the function returns early. -/
theorem connect_create_fail_eq (entries : List SignalInfo) (name : String) (cb d : Nat)
    (h : (getsignalIdx entries name).1 = none) :
    signal_handler_connect entries name cb d false =
      { entries := entries,
        trace := [Ev.lockReg, Ev.createEntry name false, Ev.linkEntry name] } := by
  cases entries with
  | nil => rfl
  | cons a rest =>
    rcases hgs : getsignalIdx (a :: rest) name with ⟨o, la⟩
    have ho : o = none := by rw [hgs] at h; simpa using h
    subst ho
    have hla : la = some ((a :: rest).length - 1) := by
      have hl := getsignalIdx_none_last (a :: rest) name h (by simp)
      rw [hgs] at hl; simpa using hl
    subst hla
    simp only [signal_handler_connect, hgs, signal_info_create, writeNext]
    have hlen : (a :: rest).length - 1 + 1 = (a :: rest).length := by simp
    rw [hlen, List.take_length, List.append_nil]

/-- `connect` on an unknown name when creation succeeds: the new node is
linked at the tail and receives the pair. -/
theorem connect_create_ok_eq (entries : List SignalInfo) (name : String) (cb d : Nat)
    (h : (getsignalIdx entries name).1 = none) :
    signal_handler_connect entries name cb d true =
      { entries := entries ++
          [{ name := name, callbacks := [{ callback := cb, data := d }] }],
        trace := [Ev.lockReg, Ev.createEntry name true, Ev.linkEntry name, Ev.unlockReg,
          Ev.lockEntry name, Ev.push, Ev.unlockEntry name] } := by
  cases entries with
  | nil => rfl
  | cons a rest =>
    rcases hgs : getsignalIdx (a :: rest) name with ⟨o, la⟩
    have ho : o = none := by rw [hgs] at h; simpa using h
    subst ho
    have hla : la = some ((a :: rest).length - 1) := by
      have hl := getsignalIdx_none_last (a :: rest) name h (by simp)
      rw [hgs] at hl; simpa using hl
    subst hla
    simp only [signal_handler_connect, hgs, signal_info_create, writeNext]
    have hlen : (a :: rest).length - 1 + 1 = (a :: rest).length := by simp
    simp only [hlen, List.take_length, modifyIdx_append_right]
    simp [connectEntryPhase, signal_get_callback_idx, scanCb]

/-- Connecting a pair that is already on the named entry's list leaves the
chain unchanged. -/
theorem connect_mem_noop (entries : List SignalInfo) (name : String) (cb d : Nat)
    (ok : Bool) (i : Nat) (h1 : (getsignalIdx entries name).1 = some i)
    (h2 : SignalCallback.mk cb d ∈ (entries.getD i dummyInfo).callbacks) :
    (signal_handler_connect entries name cb d ok).entries = entries := by
  rw [connect_found_eq entries name cb d ok i h1]
  exact modifyIdx_eq_self entries i _ (cep_of_mem _ _ h2)

/-- After a successful `connect`, the pair is on the named entry's list. -/
theorem connect_true_pair_mem (entries : List SignalInfo) (name : String) (cb d : Nat) :
    ∃ i, (getsignalIdx (signal_handler_connect entries name cb d true).entries name).1
        = some i ∧
      SignalCallback.mk cb d ∈
        ((signal_handler_connect entries name cb d true).entries.getD i
          dummyInfo).callbacks := by
  cases ho : (getsignalIdx entries name).1 with
  | some i =>
    have hlt : i < entries.length := (getsignalIdx_found entries name i ho).1
    refine ⟨i, ?_, ?_⟩
    · rw [connect_found_eq entries name cb d true i ho]
      have hnames : ((modifyIdx entries i
            (fun si => (connectEntryPhase si { callback := cb, data := d }).1)).map
          (fun si => si.name)) = entries.map (fun si => si.name) :=
        modifyIdx_map_name entries i _ (fun a => cep_name a _)
      have hcongr := getsignalAux_congr _ _ hnames name 0 none
      show (getsignalAux _ name 0 none).1 = some i
      rw [hcongr]
      exact ho
    · rw [connect_found_eq entries name cb d true i ho]
      show SignalCallback.mk cb d ∈
        ((modifyIdx entries i
          (fun si => (connectEntryPhase si { callback := cb, data := d }).1)).getD i
            dummyInfo).callbacks
      rw [modifyIdx_getD entries i _ hlt]
      exact cep_mem _ _
  | none =>
    refine ⟨entries.length, ?_, ?_⟩
    · rw [connect_create_ok_eq entries name cb d ho]
      show (getsignalAux _ name 0 none).1 = some entries.length
      rw [getsignalAux_append_none entries _ name 0 none ho]
      simp [getsignalAux]
    · rw [connect_create_ok_eq entries name cb d ho]
      show SignalCallback.mk cb d ∈ ((_ ++ [_]).getD entries.length dummyInfo).callbacks
      rw [getD_append_length]
      simp

/-! ### Behaviour of disconnect and emit on the chain -/

/-- Emission never touches the chain structure. -/
theorem emit_fst (entries : List SignalInfo) (name : String) (p : Nat) :
    (signal_handler_signal entries name p).1 = entries := by
  rcases hgs : getsignalIdx entries name with ⟨o, la⟩
  cases o <;> simp [signal_handler_signal, hgs]

/-- Disconnect never changes the chain's name sequence. -/
theorem disconnect_names (entries : List SignalInfo) (name : String) (cb d : Nat) :
    (signal_handler_disconnect entries name cb d).1.map (fun si => si.name) =
      entries.map (fun si => si.name) := by
  rcases hgs : getsignalIdx entries name with ⟨o, la⟩
  cases o with
  | none => simp [signal_handler_disconnect, hgs]
  | some i =>
    cases hsc : signal_get_callback_idx (entries.getD i dummyInfo) cb d with
    | none => simp only [signal_handler_disconnect, hgs, hsc]
    | some j =>
      simp only [signal_handler_disconnect, hgs, hsc]
      exact modifyIdx_map_name entries i _ (fun a => rfl)

/-- Any single operation either keeps the chain's name sequence or appends
exactly one name to it. -/
theorem applyOp_names (entries : List SignalInfo) (op : Op) :
    (applyOp entries op).map (fun si => si.name) = entries.map (fun si => si.name) ∨
    ∃ n, (applyOp entries op).map (fun si => si.name) =
      entries.map (fun si => si.name) ++ [n] := by
  cases op with
  | connectOp n cb d ok =>
    simp only [applyOp]
    cases ho : (getsignalIdx entries n).1 with
    | some i =>
      left
      rw [connect_found_eq entries n cb d ok i ho]
      exact modifyIdx_map_name entries i _ (fun a => cep_name a _)
    | none =>
      cases ok with
      | false =>
        left
        rw [connect_create_fail_eq entries n cb d ho]
      | true =>
        right
        refine ⟨n, ?_⟩
        rw [connect_create_ok_eq entries n cb d ho]
        simp
  | disconnectOp n cb d =>
    left
    simp only [applyOp]
    exact disconnect_names entries n cb d
  | emitOp n p =>
    left
    simp only [applyOp]
    rw [emit_fst]

/-! ### Helpers for the emission trace -/

/-- `invokeEvents` distributes over trace concatenation. -/
theorem invokeEvents_append (t1 t2 : List Ev) :
    invokeEvents (t1 ++ t2) = invokeEvents t1 ++ invokeEvents t2 := by
  simp [invokeEvents, List.filterMap_append]

/-- The invocation events of the emission loop are exactly the stored
callbacks, in array order, paired with the payload and their contexts. -/
theorem invokeEvents_map_invoke (l : List SignalCallback) (params : Nat) :
    invokeEvents (l.map (fun cb => Ev.invoke cb.callback params cb.data)) =
      l.map (fun cb => (cb.callback, params, cb.data)) := by
  induction l with
  | nil => rfl
  | cons c rest ih =>
    simp only [List.map_cons, invokeEvents, List.filterMap_cons] at ih ⊢
    rw [ih]

/-! ### The claims -/

/-- C1 (code bug): the claim states that every `signal_handler_connect`
call releases the registry-level lock before returning, in particular on
the path where `signal_info_create` fails.  The code violates this: on
that path the early `return` skips
`pthread_mutex_unlock(&handler->mutex)`, so connect returns with the
registry lock still held, even though (as the claim also says) nothing was
registered.  This theorem evaluates the embedding at the failing input —
empty registry, unknown name, failed entry creation — and shows the lock
is still held at return while the registry is unchanged; on the succeeding
path the lock is released. -/
theorem C1_connect_lock_leak :
    regStateAfter false (signal_handler_connect [] "sig" 1 2 false).trace = true ∧
    (signal_handler_connect [] "sig" 1 2 false).entries = [] ∧
    regStateAfter false (signal_handler_connect [] "sig" 1 2 true).trace = false := by
  decide

/-- C2: for a registry containing an entry for the emitted name, emit
invokes exactly the registered callbacks, once each, in list (= connection)
order, passing the emitted payload and each callback's own context. -/
theorem C2_emit_invokes_in_order (entries : List SignalInfo) (name : String)
    (params i : Nat) (h : (getsignalIdx entries name).1 = some i) :
    invokeEvents (signal_handler_signal entries name params).2 =
      (entries.getD i dummyInfo).callbacks.map
        (fun cb => (cb.callback, params, cb.data)) := by
  rcases hgs : getsignalIdx entries name with ⟨o, la⟩
  rw [hgs] at h
  obtain rfl : o = some i := h
  simp only [signal_handler_signal, hgs]
  rw [invokeEvents_append, invokeEvents_append, invokeEvents_map_invoke]
  have h1 : invokeEvents
      [Ev.lockReg, Ev.unlockReg, Ev.lockEntry (entries.getD i dummyInfo).name] = [] := rfl
  have h2 : invokeEvents [Ev.unlockEntry (entries.getD i dummyInfo).name] = [] := rfl
  rw [h1, h2, List.nil_append, List.append_nil]

/-- Witness for C2 at a concrete registry with two callbacks. -/
theorem C2_witness :
    invokeEvents (signal_handler_signal
      [{ name := "a", callbacks := [{ callback := 1, data := 2 },
        { callback := 3, data := 4 }] }] "a" 7).2 = [(1, 7, 2), (3, 7, 4)] :=
  (C2_emit_invokes_in_order
    [{ name := "a", callbacks := [{ callback := 1, data := 2 },
      { callback := 3, data := 4 }] }] "a" 7 0 (by decide)).trans (by decide)

/-- C3: connect is idempotent in the `(handler, context)` pair: connecting
a pair already present on the named entry's list leaves the chain
unchanged (for any creation outcome), and connecting the identical pair
twice has the same effect on the chain as connecting it once. -/
theorem C3_connect_idempotent (entries : List SignalInfo) (name : String)
    (cb d : Nat) (ok ok' : Bool) :
    (∀ i, (getsignalIdx entries name).1 = some i →
      SignalCallback.mk cb d ∈ (entries.getD i dummyInfo).callbacks →
      (signal_handler_connect entries name cb d ok).entries = entries) ∧
    (signal_handler_connect (signal_handler_connect entries name cb d true).entries
        name cb d ok').entries =
      (signal_handler_connect entries name cb d true).entries := by
  constructor
  · intro i h1 h2
    exact connect_mem_noop entries name cb d ok i h1 h2
  · obtain ⟨i, hi, hm⟩ := connect_true_pair_mem entries name cb d
    exact connect_mem_noop _ name cb d ok' i hi hm

/-- Witness for C3: reconnecting an already-registered pair. -/
theorem C3_witness :
    (signal_handler_connect
      [{ name := "b", callbacks := [{ callback := 5, data := 6 }] }] "b" 5 6 true).entries
      = [{ name := "b", callbacks := [{ callback := 5, data := 6 }] }] :=
  (C3_connect_idempotent
    [{ name := "b", callbacks := [{ callback := 5, data := 6 }] }] "b" 5 6 true true).1
    0 (by decide) (by decide)

/-- C4: for a registry with an entry for the name, disconnect of a present
pair removes exactly one matching cell, keeping every other cell in its
original relative order (the list splits as `l1 ++ pair :: l2` and becomes
`l1 ++ l2`); disconnect of an absent pair leaves the registry unchanged. -/
theorem C4_disconnect_removes_one (entries : List SignalInfo) (name : String)
    (cb d : Nat) (i : Nat) (h : (getsignalIdx entries name).1 = some i) :
    (SignalCallback.mk cb d ∈ (entries.getD i dummyInfo).callbacks →
      ∃ l1 l2, (entries.getD i dummyInfo).callbacks =
          l1 ++ SignalCallback.mk cb d :: l2 ∧
        (signal_handler_disconnect entries name cb d).1 =
          entries.set i
            { entries.getD i dummyInfo with callbacks := l1 ++ l2 }) ∧
    (SignalCallback.mk cb d ∉ (entries.getD i dummyInfo).callbacks →
      (signal_handler_disconnect entries name cb d).1 = entries) := by
  rcases hgs : getsignalIdx entries name with ⟨o, la⟩
  rw [hgs] at h
  obtain rfl : o = some i := h
  have hlt : i < entries.length :=
    (getsignalIdx_found entries name i (by rw [hgs])).1
  constructor
  · intro hmem
    cases hsc : signal_get_callback_idx (entries.getD i dummyInfo) cb d with
    | none => exact absurd hmem ((scanCb_eq_none cb d _ 0).mp hsc)
    | some j =>
      obtain ⟨_, hj2, hj3⟩ := scanCb_some cb d _ 0 j hsc
      have hjlt : j < (entries.getD i dummyInfo).callbacks.length := by simpa using hj2
      have hgd : (entries.getD i dummyInfo).callbacks.getD j dummyCb
          = SignalCallback.mk cb d := by simpa using hj3
      obtain ⟨l1, l2, hsplit, herase⟩ := eraseIdx_split _ j hjlt
      rw [hgd] at hsplit
      refine ⟨l1, l2, hsplit, ?_⟩
      simp only [signal_handler_disconnect, hgs, hsc]
      rw [modifyIdx_eq_set entries i _ hlt]
      simp only [herase]
  · intro hnm
    have hsc : signal_get_callback_idx (entries.getD i dummyInfo) cb d = none :=
      (scanCb_eq_none cb d _ 0).mpr hnm
    simp only [signal_handler_disconnect, hgs, hsc]

/-- Witness for C4 at a registry whose entry holds two pairs; disconnecting
the second one. -/
theorem C4_witness :
    ∃ l1 l2,
      (([{ name := "c", callbacks := [{ callback := 8, data := 9 },
        { callback := 10, data := 11 }] }] : List SignalInfo).getD 0
          dummyInfo).callbacks = l1 ++ SignalCallback.mk 10 11 :: l2 ∧
      (signal_handler_disconnect
        [{ name := "c", callbacks := [{ callback := 8, data := 9 },
          { callback := 10, data := 11 }] }] "c" 10 11).1 =
        ([{ name := "c", callbacks := [{ callback := 8, data := 9 },
          { callback := 10, data := 11 }] }] : List SignalInfo).set 0
          { ([{ name := "c", callbacks := [{ callback := 8, data := 9 },
            { callback := 10, data := 11 }] }] : List SignalInfo).getD 0
              dummyInfo with callbacks := l1 ++ l2 } :=
  (C4_disconnect_removes_one
    [{ name := "c", callbacks := [{ callback := 8, data := 9 },
      { callback := 10, data := 11 }] }] "c" 10 11 0 (by decide)).1 (by decide)

/-- C5: on a name with no entry, disconnect and emit are no-ops: the chain
is unchanged and no callback is invoked (and neither operation signals an
error — both are total). -/
theorem C5_unknown_name_noop (entries : List SignalInfo) (name : String)
    (cb d params : Nat) (h : (getsignalIdx entries name).1 = none) :
    (signal_handler_disconnect entries name cb d).1 = entries ∧
    (signal_handler_signal entries name params).1 = entries ∧
    invokeEvents (signal_handler_signal entries name params).2 = [] := by
  rcases hgs : getsignalIdx entries name with ⟨o, la⟩
  rw [hgs] at h
  obtain rfl : o = none := h
  refine ⟨?_, ?_, ?_⟩ <;>
    simp [signal_handler_disconnect, signal_handler_signal, hgs, invokeEvents]

/-- Witness for C5: emitting and disconnecting a never-created name. -/
theorem C5_witness :
    (signal_handler_disconnect
      [{ name := "a", callbacks := [{ callback := 1, data := 2 }] }] "nope" 1 2).1 =
      [{ name := "a", callbacks := [{ callback := 1, data := 2 }] }] ∧
    (signal_handler_signal
      [{ name := "a", callbacks := [{ callback := 1, data := 2 }] }] "nope" 3).1 =
      [{ name := "a", callbacks := [{ callback := 1, data := 2 }] }] ∧
    invokeEvents (signal_handler_signal
      [{ name := "a", callbacks := [{ callback := 1, data := 2 }] }] "nope" 3).2 = [] :=
  C5_unknown_name_noop
    [{ name := "a", callbacks := [{ callback := 1, data := 2 }] }] "nope" 1 2 3 (by decide)

/-- C6: create returns a new empty registry when lock initialization
succeeds; when it fails, the failure is logged, the partially allocated
handler is freed (everything allocated is freed), and a NULL handle is
returned — the function itself returns normally. -/
theorem C6_create_spec :
    signal_handler_create true =
      { handle := some [], log := [], allocated := 1, freed := 0 } ∧
    signal_handler_create false =
      { handle := none, log := [LogMsg.couldNotCreateSignalHandler],
        allocated := 1, freed := 1 } :=
  ⟨rfl, rfl⟩

/-- C7: the chain of SignalEntry nodes is append-only across any sequence
of connect/disconnect/emit operations: the original name sequence stays a
prefix of the resulting one (no entry removed, no name changed), and
disconnect and emit individually never change the name sequence at all —
only connect can extend it. -/
theorem C7_entries_append_only (entries : List SignalInfo) (ops : List Op)
    (name : String) (cb d params : Nat) :
    (∃ rest, (runOps entries ops).map (fun si => si.name) =
      entries.map (fun si => si.name) ++ rest) ∧
    (signal_handler_disconnect entries name cb d).1.map (fun si => si.name) =
      entries.map (fun si => si.name) ∧
    (signal_handler_signal entries name params).1.map (fun si => si.name) =
      entries.map (fun si => si.name) := by
  refine ⟨?_, disconnect_names entries name cb d, by rw [emit_fst]⟩
  induction ops generalizing entries with
  | nil => exact ⟨[], by simp [runOps]⟩
  | cons op rest ih =>
    obtain ⟨r, hr⟩ := ih (applyOp entries op)
    rcases applyOp_names entries op with hn | ⟨n, hn⟩
    · refine ⟨r, ?_⟩
      show (runOps (applyOp entries op) rest).map (fun si => si.name) = _
      rw [hr, hn]
    · refine ⟨[n] ++ r, ?_⟩
      show (runOps (applyOp entries op) rest).map (fun si => si.name) = _
      rw [hr, hn, List.append_assoc]

/-- C8: during connect, the allocation of a new SignalEntry and the store
that links it into the chain happen while the registry lock is held: every
`createEntry` or `linkEntry` event of any connect trace is annotated with
the registry lock in the held state. -/
theorem C8_link_under_registry_lock (entries : List SignalInfo) (name : String)
    (cb d : Nat) (ok : Bool) (p : Ev × Bool)
    (hp : p ∈ annotateReg false (signal_handler_connect entries name cb d ok).trace)
    (he : p.1 = Ev.linkEntry name ∨ p.1 = Ev.createEntry name true ∨
      p.1 = Ev.createEntry name false) :
    p.2 = true := by
  cases ho : (getsignalIdx entries name).1 with
  | some i =>
    have htr : (signal_handler_connect entries name cb d ok).trace =
        [Ev.lockReg, Ev.unlockReg] ++
          (connectEntryPhase (entries.getD i dummyInfo)
            { callback := cb, data := d }).2 := by
      rw [connect_found_eq entries name cb d ok i ho]
    rw [htr, annotateReg_append] at hp
    simp [annotateReg, regStep, regStateAfter] at hp
    rcases hp with rfl | rfl | hmem
    · rfl
    · simp at he
    · have hev := cep_trace_events _ _ _ p hmem
      rcases he with h1 | h1 | h1 <;> rcases hev with h2 | h2 | h2 <;>
        rw [h1] at h2 <;> simp at h2
  | none =>
    cases ok with
    | true =>
      have htr := connect_create_ok_eq entries name cb d ho
      rw [htr] at hp
      simp [annotateReg, regStep] at hp
      rcases hp with rfl | rfl | rfl | rfl | rfl | rfl | rfl <;>
        first | rfl | simp at he
    | false =>
      have htr := connect_create_fail_eq entries name cb d ho
      rw [htr] at hp
      simp [annotateReg, regStep] at hp
      rcases hp with rfl | rfl | rfl <;> rfl

/-- Witness for C8: the link event of a first-time connect is annotated as
executed under the registry lock. -/
theorem C8_witness :
    (Ev.linkEntry "w", true) ∈
      annotateReg false (signal_handler_connect [] "w" 1 2 true).trace ∧
    ((Ev.linkEntry "w", true) : Ev × Bool).2 = true :=
  ⟨by decide,
    C8_link_under_registry_lock [] "w" 1 2 true (Ev.linkEntry "w", true)
      (by decide) (Or.inl rfl)⟩

/-- C9: connect, disconnect and emit dereference the registry handle
unconditionally (no NULL check), so a NULL handle is undefined behaviour
for them; only destroy guards with `if (handler)` and tolerates NULL as a
no-op. -/
theorem C9_null_handle (name : String) (cb d params : Nat) (ok : Bool) :
    connectOnHandle none name cb d ok = CallResult.nullDeref ∧
    disconnectOnHandle none name cb d = CallResult.nullDeref ∧
    emitOnHandle none name params = CallResult.nullDeref ∧
    signal_handler_destroy none = CallResult.ok [] :=
  ⟨rfl, rfl, rfl, rfl⟩

/-- C10: when entry creation fails inside connect, the conditional NULL
stores leave the chain observably unchanged — writing NULL into
`handler->first` happens only when the chain was empty, and writing NULL
into the tail's `next` rewrites a NULL that was already there. -/
theorem C10_connect_fail_atomic (entries : List SignalInfo) (name : String)
    (cb d : Nat) (h : (getsignalIdx entries name).1 = none) :
    (signal_handler_connect entries name cb d false).entries = entries := by
  rw [connect_create_fail_eq entries name cb d h]

/-- Witness for C10 on a nonempty registry (exercises the tail `next`
store). -/
theorem C10_witness :
    (getsignalIdx [{ name := "x", callbacks := [{ callback := 1, data := 2 }] }]
      "y").1 = none ∧
    (signal_handler_connect
      [{ name := "x", callbacks := [{ callback := 1, data := 2 }] }] "y" 3 4
        false).entries =
      [{ name := "x", callbacks := [{ callback := 1, data := 2 }] }] :=
  ⟨by decide,
    C10_connect_fail_atomic
      [{ name := "x", callbacks := [{ callback := 1, data := 2 }] }] "y" 3 4
      (by decide)⟩

end ObsSignal
